import Mathlib

/-!
Verification of `sensors_checking.py`, a remote sensor health-check pipeline.

The Python program is shallowly embedded: JSON values deserialized by
`json.loads` become the inductive type `JValue`; Python numbers are modelled
as exact rationals (`ℚ`); Python booleans are a separate constructor because
`isinstance(True, int)` holds in Python, which `isNumeric` reflects.
Functions that can raise return `Option`; `sys.exit` paths are modelled by
returning the exit code.
-/

namespace SensorsChecking

/-- A value deserialized by `json.loads`. -/
inductive JValue where
  | null : JValue
  | bool (b : Bool) : JValue
  | num (q : ℚ) : JValue
  | str (s : String) : JValue
  | arr (xs : List JValue) : JValue
  | obj (kvs : List (String × JValue)) : JValue

/-- Embedding of Python `isinstance(val, (int, float))`.  Booleans pass this
check because `bool` is a subclass of `int` in Python. -/
def isNumeric : JValue → Bool
  | .num _ => true
  | .bool _ => true
  | _ => false

/-- Numeric content of a value passing `isNumeric`; `True` counts as 1 and
`False` as 0, as in Python arithmetic on booleans. -/
def toRat : JValue → ℚ
  | .num q => q
  | .bool b => if b then 1 else 0
  | _ => 0

/-- Embedding of Python `str.startswith`: character-sequence test. -/
def startsWithPy (s p : String) : Bool :=
  p.toList.isPrefixOf s.toList

/-- Embedding of Python `str.endswith`: character-sequence test. -/
def endsWithPy (s p : String) : Bool :=
  p.toList.isSuffixOf s.toList

/-- Floor of a rational, computed from numerator and denominator.  The
denominator is positive, so Euclidean division is floor division. -/
def ratFloor (q : ℚ) : ℤ :=
  q.num.ediv (q.den : ℤ)

/-- Round a rational to the nearest integer, ties to even — the behaviour of
Python 3 `round` (the spec accepts either tie-breaking rule). -/
def roundHalfEven (q : ℚ) : ℤ :=
  let f := ratFloor q
  let r := q - (f : ℚ)
  if r < 1 / 2 then f
  else if 1 / 2 < r then f + 1
  else if f % 2 = 0 then f else f + 1

/-- Embedding of Python `round(x, 1)` over exact rationals. -/
def round1 (q : ℚ) : ℚ :=
  (roundHalfEven (10 * q) : ℚ) / 10

/-- The flattened readings `{'temp': [...], 'hum': [...]}`. -/
structure Flat where
  temp : List ℚ
  hum : List ℚ
deriving Repr, DecidableEq

/-- A well-formed Raw Sensor Document: chip name to mapping of labelled field
name to value, in encounter (insertion) order. -/
abbrev Doc := List (String × List (String × JValue))

/-- The warning printed by `flatten_sensors` for a non-numeric field value. -/
def warnMsg (label : String) : String :=
  "Warning: sensor value " ++ label ++ " is not numeric, skipping"

/-- One iteration of the inner loop of `flatten_sensors` (lines 121-136):
the state is the `flat` accumulator together with the warnings printed so
far.  A non-numeric value is skipped with a warning before the `_input`
suffix is examined; a numeric value under a label not ending in `_input` is
skipped silently; otherwise the value is converted and routed by its label
prefix (`temp` first, then `humidity` via `elif`). -/
def flattenStep (st : Flat × List String) (lv : String × JValue) :
    Flat × List String :=
  if !isNumeric lv.2 then
    (st.1, st.2 ++ [warnMsg lv.1])
  else if !endsWithPy lv.1 "_input" then
    st
  else
    let value := round1 (toRat lv.2 / 1000)
    if startsWithPy lv.1 "temp" then
      ({ st.1 with temp := st.1.temp ++ [value] }, st.2)
    else if startsWithPy lv.1 "humidity" then
      ({ st.1 with hum := st.1.hum ++ [value] }, st.2)
    else
      st

/-- `flatten_sensors` on a well-formed document: result together with the
warnings it prints. -/
def flattenRun (data : Doc) : Flat × List String :=
  data.foldl (fun st chip => chip.2.foldl flattenStep st) (⟨[], []⟩, [])

/-- The return value of `flatten_sensors` (lines 98-137). -/
def flatten_sensors (data : Doc) : Flat :=
  (flattenRun data).1

/-- `flatten_sensors` applied to an arbitrary deserialized value.  `none`
models the `AttributeError` raised when `data.values()` is called on a
non-mapping or `chip.items()` on a non-mapping chip entry; the error, if
any, occurs after the earlier chips have been processed. -/
def flattenAny (data : JValue) : Option (Flat × List String) :=
  match data with
  | .obj chips =>
      chips.foldl
        (fun acc chip =>
          match acc with
          | none => none
          | some st =>
              match chip.2 with
              | .obj fields => some (fields.foldl flattenStep st)
              | _ => none)
        (some (⟨[], []⟩, []))
  | _ => none

/-- A well-formed document as the `JValue` that `json.loads` would produce
for it. -/
def docToJValue (data : Doc) : JValue :=
  .obj (data.map fun chip => (chip.1, JValue.obj chip.2))

/-- Rendering of a number inside a Python f-string or `json.dumps`.  The
pipeline only ever formats floats (division and `round` return floats), whose
`str()` for the one-decimal values arising here is `<int part>.<one digit>`;
other rationals get a fallback fraction rendering. -/
def pyStr (q : ℚ) : String :=
  let sign := if q < 0 then "-" else ""
  let n := (10 * q).num.natAbs
  if (10 * q).den = 1 then
    sign ++ toString (n / 10) ++ "." ++ toString (n % 10)
  else
    sign ++ toString q.num.natAbs ++ "/" ++ toString q.den

/-- The ranges mapping `{'temp': (min, max), 'hum': (min, max)}` built in
`main` (line 226). -/
structure Ranges where
  temp : ℚ × ℚ
  hum : ℚ × ℚ
deriving Repr, DecidableEq

/-- The Validation Issue string built by the f-string on line 173:
`f"\x7bkind\x7d\x7bi\x7d: \x7bv\x7d out of \x7blo\x7d..\x7bhi\x7d"`. -/
def issueStr (kind : String) (i : ℕ) (v lo hi : ℚ) : String :=
  kind ++ toString i ++ ": " ++ pyStr v ++ " out of " ++ pyStr lo ++ ".." ++ pyStr hi

/-- One iteration of the loop body of `validate` (lines 171-173): append an
issue when the value fails `lo <= v <= hi`. -/
def validateStep (kind : String) (lo hi : ℚ) (issues : List String)
    (iv : ℕ × ℚ) : List String :=
  if ¬(lo ≤ iv.2 ∧ iv.2 ≤ hi) then
    issues ++ [issueStr kind iv.1 iv.2 lo hi]
  else
    issues

/-- The issues contributed by one kind, starting from an empty accumulator:
the inner loop of `validate` with `enumerate(lst, start=1)`. -/
def issuesFor (kind : String) (lo hi : ℚ) (lst : List ℚ) : List String :=
  (lst.enumFrom 1).foldl (validateStep kind lo hi) []

/-- `validate` (lines 140-174): one shared `issues` list, filled by iterating
`values.items()` in insertion order — `temp` first, then `hum`. -/
def validate (values : Flat) (ranges : Ranges) : List String :=
  let issues : List String := []
  let issues :=
    (values.temp.enumFrom 1).foldl (validateStep "temp" ranges.temp.1 ranges.temp.2) issues
  (values.hum.enumFrom 1).foldl (validateStep "hum" ranges.hum.1 ranges.hum.2) issues

/-- Python `str()` of a list of floats, as printed on lines 245-246. -/
def pyListStr (l : List ℚ) : String :=
  "[" ++ String.intercalate ", " (l.map pyStr) ++ "]"

/-- `json.dumps({"temp": [...], "hum": [...]})` as printed on line 236. -/
def dumps (vals : Flat) : String :=
  "\x7b\"temp\": " ++ pyListStr vals.temp ++ ", \"hum\": " ++ pyListStr vals.hum ++ "\x7d"

/-- The summary line printed on lines 240-243. -/
def foundLine (vals : Flat) (total : ℕ) : String :=
  "Found " ++ toString vals.temp.length ++ " temp sensors and "
    ++ toString vals.hum.length ++ " humidity sensors (total " ++ toString total ++ ")"

/-- Line 245. -/
def tempLine (vals : Flat) : String :=
  "Temperature values: " ++ pyListStr vals.temp

/-- Line 246. -/
def humLine (vals : Flat) : String :=
  "Humidity values:    " ++ pyListStr vals.hum

/-- Line 249. -/
def missingLine (expected : ℤ) (total : ℕ) : String :=
  "Missing sensors: expected " ++ toString expected ++ ", found " ++ toString total

/-- The tail of `main` (lines 235-264) once the Flattened Readings are in
hand: exit code together with the lines printed to stdout.  `expected` is the
`--expected-sensors` argument (a Python `int`, hence `ℤ`). -/
def mainAfterFlatten (vals : Flat) (raw : Bool) (expected : ℤ)
    (ranges : Ranges) : ℕ × List String :=
  if raw then
    (0, [dumps vals])
  else
    let total := vals.temp.length + vals.hum.length
    let header := [foundLine vals total, tempLine vals, humLine vals]
    if (total : ℤ) < expected then
      (1, header ++ [missingLine expected total])
    else
      let issues := validate vals ranges
      if issues ≠ [] then
        (2, header ++ ["ISSUES:"] ++ issues.map (fun s => "- " ++ s))
      else
        (0, header ++ ["All sensors within range, exiting 0"])

/-- Exit code of a whole run, parameterized by the outcome of `json.loads`
on the remote output (`none` models a `JSONDecodeError`).  When decoding
fails, `get_sensors_json` calls `sys.exit(3)`; `SystemExit` is not an
`Exception`, so it escapes `main`'s handler.  When decoding succeeds,
`flatten_sensors` runs; an `AttributeError` there is caught by `main`'s
generic `except Exception` handler (line 259), which exits 1. -/
def mainExit (parsed : Option JValue) (raw : Bool) (expected : ℤ)
    (ranges : Ranges) : ℕ :=
  match parsed with
  | none => 3
  | some data =>
      match flattenAny data with
      | none => 1
      | some st => (mainAfterFlatten st.1 raw expected ranges).1

/-- How the collaborators of one `ssh_run` call behave: whether the
`paramiko.SSHClient()` constructor, `connect`, `exec_command` and `close`
succeed, and the captured streams. -/
structure SshEnv where
  createOk : Bool
  connectOk : Bool
  execOk : Bool
  stdoutText : String
  stderrText : String
  closeOk : Bool

/-- Observable events of one `ssh_run` call, in order. -/
inductive SshEvent where
  | clientCreated : SshEvent
  | closeCalled : SshEvent
  | closeFailedWarning : SshEvent
deriving Repr, DecidableEq

/-- `ssh_run` (lines 34-59) as a trace semantics: the ordered events and the
outcome (`Except.error` models a propagated exception).  `conn` starts as
`None`; if the constructor fails, the `finally` block sees `conn is None`
and skips `close`.  Otherwise `close` is attempted on every path, and a
failing `close` is swallowed by the inner handler (lines 56-59), leaving the
body's outcome unchanged. -/
def ssh_run (env : SshEnv) : List SshEvent × Except Unit String :=
  if !env.createOk then
    ([], .error ())
  else
    let body : Except Unit String :=
      if env.connectOk then
        if env.execOk then .ok env.stdoutText else .error ()
      else
        .error ()
    let closeEvents :=
      if env.closeOk then [SshEvent.closeCalled]
      else [SshEvent.closeCalled, SshEvent.closeFailedWarning]
    (SshEvent.clientCreated :: closeEvents, body)

/-! Spec-side definitions, written from the specification's words, to be
compared with the embedded code. -/

/-- Spec reading of one field (§4.3): a numeric value under a label ending in
`_input` and starting with the given literal word contributes
`round(v / 1000, 1)`. -/
def fieldSpec (wanted : String) (lv : String × JValue) : Option ℚ :=
  if isNumeric lv.2 && endsWithPy lv.1 "_input" && startsWithPy lv.1 wanted then
    some (round1 (toRat lv.2 / 1000))
  else
    none

/-- Spec `temp` sequence: encounter order over chips and fields, labels with
the `temp` word at the start. -/
def tempSeq (data : Doc) : List ℚ :=
  (data.map fun chip => chip.2.filterMap (fieldSpec "temp")).flatten

/-- Spec `hum` sequence: labels with the `humidity` word at the start. -/
def humSeq (data : Doc) : List ℚ :=
  (data.map fun chip => chip.2.filterMap (fieldSpec "humidity")).flatten

/-- Spec warning emission: one warning per non-numeric field value. -/
def warnSpec (lv : String × JValue) : Option String :=
  if isNumeric lv.2 then none else some (warnMsg lv.1)

/-- Spec warning sequence in encounter order. -/
def warnSeq (data : Doc) : List String :=
  (data.map fun chip => chip.2.filterMap warnSpec).flatten

/-- Spec reading of the Validator (§4.4) for one kind: exactly one issue per
value strictly outside the closed interval (`value < min OR value > max`),
in order, with 1-based indices. -/
def issuesSpecFor (kind : String) (lo hi : ℚ) (lst : List ℚ) : List String :=
  (lst.enumFrom 1).filterMap fun iv =>
    if iv.2 < lo ∨ hi < iv.2 then some (issueStr kind iv.1 iv.2 lo hi) else none

/-- Spec reading of `validate`: the `temp` issues then the `hum` issues. -/
def validateSpec (values : Flat) (ranges : Ranges) : List String :=
  issuesSpecFor "temp" ranges.temp.1 ranges.temp.2 values.temp
    ++ issuesSpecFor "hum" ranges.hum.1 ranges.hum.2 values.hum

/-- Sanity: a millesimal rounds to 0.0, as `round(0.001, 1)` does. -/
lemma round1_milli : round1 (1 / 1000) = 0 := by
  norm_num [round1, roundHalfEven, ratFloor]

/-- Sanity: the sample reading 25000 converts to 25.0. -/
lemma round1_sample : round1 ((25000 : ℚ) / 1000) = 25 := by
  norm_num [round1, roundHalfEven, ratFloor]

/-- Sanity: a tie rounds to the even neighbour. -/
lemma round1_tie : round1 ((15 : ℚ) / 100) = 2 / 10 := by
  norm_num [round1, roundHalfEven, ratFloor]

/-- A label that starts with the word `temp` cannot start with the word
`humidity`: the first characters differ. -/
lemma temp_not_humidity {s : String} (h : startsWithPy s "temp" = true) :
    startsWithPy s "humidity" = false := by
  unfold startsWithPy at h ⊢
  have ht : "temp".toList = ['t', 'e', 'm', 'p'] := rfl
  have hh : "humidity".toList = ['h', 'u', 'm', 'i', 'd', 'i', 't', 'y'] := rfl
  rw [ht] at h
  rw [hh]
  cases hl : s.toList with
  | nil => rw [hl] at h; simp [List.isPrefixOf] at h
  | cons c cs =>
    rw [hl] at h
    simp only [List.isPrefixOf, Bool.and_eq_true, beq_iff_eq] at h
    simp only [List.isPrefixOf]
    have hc : ('h' == c) = false := by rw [← h.1]; decide
    simp [hc]

/-- A label that starts with the word `humidity` cannot start with the word
`temp`. -/
lemma humidity_not_temp {s : String} (h : startsWithPy s "humidity" = true) :
    startsWithPy s "temp" = false := by
  unfold startsWithPy at h ⊢
  have ht : "temp".toList = ['t', 'e', 'm', 'p'] := rfl
  have hh : "humidity".toList = ['h', 'u', 'm', 'i', 'd', 'i', 't', 'y'] := rfl
  rw [hh] at h
  rw [ht]
  cases hl : s.toList with
  | nil => rw [hl] at h; simp [List.isPrefixOf] at h
  | cons c cs =>
    rw [hl] at h
    simp only [List.isPrefixOf, Bool.and_eq_true, beq_iff_eq] at h
    simp only [List.isPrefixOf]
    have hc : ('t' == c) = false := by rw [← h.1]; decide
    simp [hc]

/-- Folding the inner loop of `flatten_sensors` over one chip appends, to
each component of the state, exactly the spec-side contributions of that
chip's fields. -/
lemma flattenStep_fold (fields : List (String × JValue)) :
    ∀ st : Flat × List String,
      fields.foldl flattenStep st =
        ({ temp := st.1.temp ++ fields.filterMap (fieldSpec "temp"),
           hum := st.1.hum ++ fields.filterMap (fieldSpec "humidity") },
         st.2 ++ fields.filterMap warnSpec) := by
  induction fields with
  | nil => intro st; simp
  | cons lv rest ih =>
    intro st
    obtain ⟨label, v⟩ := lv
    simp only [List.foldl_cons]
    by_cases h1 : isNumeric v = true
    · by_cases h2 : endsWithPy label "_input" = true
      · by_cases h3 : startsWithPy label "temp" = true
        · have h4 : startsWithPy label "humidity" = false := temp_not_humidity h3
          have hstep : flattenStep st (label, v) =
              ({ st.1 with temp := st.1.temp ++ [round1 (toRat v / 1000)] }, st.2) := by
            simp [flattenStep, h1, h2, h3]
          rw [hstep, ih]
          simp [fieldSpec, h1, h2, h3, h4, warnSpec, List.append_assoc]
        · have h3f : startsWithPy label "temp" = false := by
            simpa using h3
          by_cases h4 : startsWithPy label "humidity" = true
          · have hstep : flattenStep st (label, v) =
                ({ st.1 with hum := st.1.hum ++ [round1 (toRat v / 1000)] }, st.2) := by
              simp [flattenStep, h1, h2, h3f, h4]
            rw [hstep, ih]
            simp [fieldSpec, h1, h2, h3f, h4, warnSpec, List.append_assoc]
          · have h4f : startsWithPy label "humidity" = false := by
              simpa using h4
            have hstep : flattenStep st (label, v) = st := by
              simp [flattenStep, h1, h2, h3f, h4f]
            rw [hstep, ih]
            simp [fieldSpec, h1, h2, h3f, h4f, warnSpec]
      · have h2f : endsWithPy label "_input" = false := by simpa using h2
        have hstep : flattenStep st (label, v) = st := by
          simp [flattenStep, h1, h2f]
        rw [hstep, ih]
        simp [fieldSpec, h1, h2f, warnSpec]
    · have h1f : isNumeric v = false := by simpa using h1
      have hstep : flattenStep st (label, v) = (st.1, st.2 ++ [warnMsg label]) := by
        simp [flattenStep, h1f]
      rw [hstep, ih]
      simp [fieldSpec, h1f, warnSpec, List.append_assoc]

/-- Folding `flatten_sensors` over a whole document appends the spec-side
sequences of every chip in encounter order. -/
lemma flattenRun_fold (data : Doc) :
    ∀ st : Flat × List String,
      data.foldl (fun st chip => chip.2.foldl flattenStep st) st =
        ({ temp := st.1.temp ++ tempSeq data, hum := st.1.hum ++ humSeq data },
         st.2 ++ warnSeq data) := by
  induction data with
  | nil => intro st; simp [tempSeq, humSeq, warnSeq]
  | cons chip rest ih =>
    intro st
    simp only [List.foldl_cons]
    rw [flattenStep_fold, ih]
    simp [tempSeq, humSeq, warnSeq, List.append_assoc]

/-- `flatten_sensors` on a document produces exactly the spec-side result and
warnings. -/
lemma flattenRun_eq (data : Doc) :
    flattenRun data = ({ temp := tempSeq data, hum := humSeq data }, warnSeq data) := by
  rw [flattenRun, flattenRun_fold]
  simp

/-- On a document whose chips are all mappings, the general-value walk never
fails and agrees with the two-level fold. -/
lemma flattenAny_fold (data : Doc) :
    ∀ st : Flat × List String,
      (data.map fun chip => (chip.1, JValue.obj chip.2)).foldl
          (fun acc chip =>
            match acc with
            | none => none
            | some st =>
                match chip.2 with
                | .obj fields => some (fields.foldl flattenStep st)
                | _ => none)
          (some st)
        = some (data.foldl (fun st chip => chip.2.foldl flattenStep st) st) := by
  induction data with
  | nil => intro st; simp
  | cons chip rest ih =>
    intro st
    simp only [List.map_cons, List.foldl_cons]
    exact ih (chip.2.foldl flattenStep st)

/-- C1: on every well-formed Raw Sensor Document, `flatten_sensors` returns
exactly the encounter-ordered sequences of `round(v / 1000, 1)` for numeric
values under labels ending in `_input`, routed by the `temp` / `humidity`
label start; every other field contributes to neither sequence. -/
theorem flatten_sensors_spec (data : Doc) :
    flatten_sensors data = { temp := tempSeq data, hum := humSeq data } := by
  rw [flatten_sensors, flattenRun_eq]

/-- C7: `flatten_sensors` is total over every well-formed Raw Sensor Document
(string chip names mapped to mappings of string field names to arbitrary
JSON values): the general-value walk `flattenAny`, whose `none` models a
raised `AttributeError`, always succeeds on such a document, returning the
pure result and the warnings of the dropped malformed entries. -/
theorem flatten_sensors_total (data : Doc) :
    flattenAny (docToJValue data) = some (flattenRun data) := by
  rw [docToJValue, flattenAny, flattenRun]
  exact flattenAny_fold data (⟨[], []⟩, [])

/-- C9: a boolean under a `_input` label with a `temp` or `humidity` start is
treated as numeric by `flatten_sensors`: no skip warning is emitted, and
`round(b / 1000, 1) = 0.0` is appended to the corresponding sequence, so the
boolean counts toward the sensor total. -/
theorem flatten_bool_numeric (st : Flat × List String) (label : String) (b : Bool)
    (hin : endsWithPy label "_input" = true) :
    (startsWithPy label "temp" = true →
      flattenStep st (label, .bool b) =
        ({ st.1 with temp := st.1.temp ++ [0] }, st.2)) ∧
    (startsWithPy label "humidity" = true →
      flattenStep st (label, .bool b) =
        ({ st.1 with hum := st.1.hum ++ [0] }, st.2)) := by
  have hv : round1 (toRat (.bool b) / 1000) = 0 := by
    cases b <;> norm_num [toRat, round1, roundHalfEven, ratFloor]
  constructor
  · intro h3
    simp [flattenStep, isNumeric, hin, h3, hv]
  · intro h4
    have h3 : startsWithPy label "temp" = false := humidity_not_temp h4
    simp [flattenStep, isNumeric, hin, h3, h4, hv]

/-- Witness for C9: `{"chip": {"temp1_input": true}}` at the field step. -/
theorem flatten_bool_numeric_witness :
    flattenStep ({ temp := [], hum := [] }, []) ("temp1_input", .bool true)
      = ({ temp := [0], hum := [] }, []) := by
  have h :=
    (flatten_bool_numeric ({ temp := [], hum := [] }, []) "temp1_input" true
      (by decide)).1 (by decide)
  simpa using h

/-- A value that is itself a mapping or a sequence. -/
def isNested : JValue → Bool
  | .obj _ => true
  | .arr _ => true
  | _ => false

/-- C10: `flatten_sensors` never recurses below two levels: a field whose
value is a mapping or a sequence is treated as non-numeric and skipped with a
warning, contributing to neither sequence; a fully nested document therefore
yields empty `temp` and `hum`. -/
theorem flatten_nested_skipped :
    (∀ (st : Flat × List String) (label : String) (v : JValue),
        isNested v = true →
        flattenStep st (label, v) = (st.1, st.2 ++ [warnMsg label])) ∧
    (∀ data : Doc,
        (∀ chip ∈ data, ∀ fld ∈ chip.2, isNested fld.2 = true) →
        flatten_sensors data = { temp := [], hum := [] }) := by
  have hnum : ∀ v, isNested v = true → isNumeric v = false := by
    intro v hv
    cases v <;> simp_all [isNested, isNumeric]
  constructor
  · intro st label v hv
    simp [flattenStep, hnum v hv]
  · intro data hall
    rw [flatten_sensors, flattenRun_eq]
    have htmp : ∀ chip ∈ data, chip.2.filterMap (fieldSpec "temp") = [] := by
      intro chip hc
      rw [List.filterMap_eq_nil_iff]
      intro fld hf
      simp [fieldSpec, hnum fld.2 (hall chip hc fld hf)]
    have hhum : ∀ chip ∈ data, chip.2.filterMap (fieldSpec "humidity") = [] := by
      intro chip hc
      rw [List.filterMap_eq_nil_iff]
      intro fld hf
      simp [fieldSpec, hnum fld.2 (hall chip hc fld hf)]
    have h1 : tempSeq data = [] := by
      rw [tempSeq, List.flatten_eq_nil_iff]
      intro l hl
      obtain ⟨chip, hc, rfl⟩ := List.mem_map.mp hl
      exact htmp chip hc
    have h2 : humSeq data = [] := by
      rw [humSeq, List.flatten_eq_nil_iff]
      intro l hl
      obtain ⟨chip, hc, rfl⟩ := List.mem_map.mp hl
      exact hhum chip hc
    rw [h1, h2]

/-- Witness for C10: a document of nested chip/feature/subfeature shape. -/
theorem flatten_nested_skipped_witness :
    flatten_sensors
        [("chip", [("temp1_input", .obj [("temp1_input", .num 24000)]),
                   ("fan", .arr [.num 1])])]
      = { temp := [], hum := [] } := by
  apply flatten_nested_skipped.2
  intro chip hc fld hf
  simp only [List.mem_singleton] at hc
  subst hc
  simp only [List.mem_cons, List.not_mem_nil, or_false] at hf
  rcases hf with rfl | rfl <;> rfl

/-- Folding the loop body of `validate` appends exactly the issues of the
out-of-range positions, in order. -/
lemma foldl_validateStep (kind : String) (lo hi : ℚ) :
    ∀ (l : List (ℕ × ℚ)) (acc : List String),
      l.foldl (validateStep kind lo hi) acc
        = acc ++ l.filterMap (fun iv =>
            if ¬(lo ≤ iv.2 ∧ iv.2 ≤ hi) then some (issueStr kind iv.1 iv.2 lo hi)
            else none) := by
  intro l
  induction l with
  | nil => intro acc; simp
  | cons iv rest ih =>
    intro acc
    simp only [List.foldl_cons, List.filterMap_cons]
    by_cases h : ¬(lo ≤ iv.2 ∧ iv.2 ≤ hi)
    · rw [validateStep, if_pos h, ih]
      simp [h, List.append_assoc]
    · rw [validateStep, if_neg h, ih]
      simp [h]

/-- `validate` is the `temp` issues followed by the `hum` issues. -/
lemma validate_eq_append (values : Flat) (ranges : Ranges) :
    validate values ranges
      = issuesFor "temp" ranges.temp.1 ranges.temp.2 values.temp
        ++ issuesFor "hum" ranges.hum.1 ranges.hum.2 values.hum := by
  rw [validate, issuesFor, issuesFor]
  rw [foldl_validateStep, foldl_validateStep, foldl_validateStep]
  simp

/-- Failing the code's membership test `lo <= v <= hi` is being strictly
outside the closed interval. -/
lemma out_of_range_iff (lo hi v : ℚ) :
    (¬(lo ≤ v ∧ v ≤ hi)) ↔ (v < lo ∨ hi < v) := by
  rw [not_and_or, not_le, not_le]

/-- A bounded quantifier over `enumFrom` of a property of the values alone is
a bounded quantifier over the list. -/
lemma ball_enumFrom (P : ℚ → Prop) :
    ∀ (n : ℕ) (l : List ℚ), (∀ iv ∈ l.enumFrom n, P iv.2) ↔ ∀ v ∈ l, P v := by
  intro n l
  induction l generalizing n with
  | nil => simp
  | cons a as ih =>
    simp only [List.enumFrom, List.mem_cons, forall_eq_or_imp]
    rw [ih]

/-- The loop of `validate` for one kind agrees with the spec-side issue
list. -/
lemma issuesFor_eq_spec (kind : String) (lo hi : ℚ) (lst : List ℚ) :
    issuesFor kind lo hi lst = issuesSpecFor kind lo hi lst := by
  rw [issuesFor, foldl_validateStep, issuesSpecFor, List.nil_append]
  apply List.filterMap_congr
  intro iv _
  by_cases h : lo ≤ iv.2 ∧ iv.2 ≤ hi
  · rw [if_neg (by simpa using h), if_neg (by rw [← out_of_range_iff]; simpa using h)]
  · rw [if_pos h, if_pos ((out_of_range_iff lo hi iv.2).mp h)]

/-- The loop of `validate` for one kind emits nothing exactly when every
value lies in the closed interval. -/
lemma issuesFor_nil_iff (kind : String) (lo hi : ℚ) (lst : List ℚ) :
    issuesFor kind lo hi lst = [] ↔ ∀ v ∈ lst, lo ≤ v ∧ v ≤ hi := by
  rw [issuesFor, foldl_validateStep, List.nil_append, List.filterMap_eq_nil_iff]
  rw [show (∀ iv ∈ lst.enumFrom 1,
        (if ¬(lo ≤ iv.2 ∧ iv.2 ≤ hi) then some (issueStr kind iv.1 iv.2 lo hi)
         else none) = none)
      ↔ ∀ iv ∈ lst.enumFrom 1, lo ≤ iv.2 ∧ iv.2 ≤ hi from
    forall₂_congr fun iv _ => by by_cases h : lo ≤ iv.2 ∧ iv.2 ≤ hi <;> simp [h]]
  exact ball_enumFrom (fun v => lo ≤ v ∧ v ≤ hi) 1 lst

/-- C3: `validate` returns, for each kind in order (`temp` then `hum`) and
each 1-based position whose value is strictly outside the closed interval,
exactly one string `"{kind}{i}: {value} out of {min}..{max}"`, and nothing
else; in particular it is empty exactly when every value is in range,
including when both sequences are empty. -/
theorem validate_matches_spec (values : Flat) (ranges : Ranges) :
    validate values ranges = validateSpec values ranges ∧
    (validate values ranges = [] ↔
      (∀ v ∈ values.temp, ranges.temp.1 ≤ v ∧ v ≤ ranges.temp.2) ∧
      ∀ v ∈ values.hum, ranges.hum.1 ≤ v ∧ v ≤ ranges.hum.2) := by
  constructor
  · rw [validate_eq_append, validateSpec, issuesFor_eq_spec, issuesFor_eq_spec]
  · rw [validate_eq_append, List.append_eq_nil, issuesFor_nil_iff, issuesFor_nil_iff]

/-- Where every element fails the filter test, `filterMap` is a `map`. -/
lemma filterMap_if_of_forall {α β : Type} (p : α → Prop) [DecidablePred p]
    (g : α → β) (l : List α) (h : ∀ x ∈ l, p x) :
    l.filterMap (fun x => if p x then some (g x) else none) = l.map g := by
  induction l with
  | nil => simp
  | cons a as ih =>
    simp only [List.filterMap_cons, List.map_cons, if_pos (h a (by simp))]
    rw [ih fun x hx => h x (by simp [hx])]

/-- C4: a Range with `min > max` is an always-failing interval: `validate`
emits one Validation Issue for every value of that kind (it does not raise on
such a range — in the embedding it is total and yields the full issue
list). -/
theorem validate_inverted_range (values : Flat) (ranges : Ranges) :
    validate values ranges
        = issuesFor "temp" ranges.temp.1 ranges.temp.2 values.temp
          ++ issuesFor "hum" ranges.hum.1 ranges.hum.2 values.hum ∧
    (ranges.temp.2 < ranges.temp.1 →
      issuesFor "temp" ranges.temp.1 ranges.temp.2 values.temp
        = (values.temp.enumFrom 1).map
            (fun iv => issueStr "temp" iv.1 iv.2 ranges.temp.1 ranges.temp.2)) ∧
    (ranges.hum.2 < ranges.hum.1 →
      issuesFor "hum" ranges.hum.1 ranges.hum.2 values.hum
        = (values.hum.enumFrom 1).map
            (fun iv => issueStr "hum" iv.1 iv.2 ranges.hum.1 ranges.hum.2)) := by
  refine ⟨validate_eq_append values ranges, ?_, ?_⟩
  · intro hinv
    rw [issuesFor, foldl_validateStep, List.nil_append]
    exact filterMap_if_of_forall _ _ _ fun iv _ hmem =>
      absurd (hmem.1.trans hmem.2) (not_le.mpr hinv)
  · intro hinv
    rw [issuesFor, foldl_validateStep, List.nil_append]
    exact filterMap_if_of_forall _ _ _ fun iv _ hmem =>
      absurd (hmem.1.trans hmem.2) (not_le.mpr hinv)

/-- Witness for C4: `--temp-range 80 -20` with the in-range-looking reading
25.0 still yields an issue for it. -/
theorem validate_inverted_range_witness :
    issuesFor "temp" 80 (-20) [25]
      = (([25] : List ℚ).enumFrom 1).map
          (fun iv => issueStr "temp" iv.1 iv.2 80 (-20)) := by
  exact (validate_inverted_range ⟨[25], []⟩ ⟨(80, -20), (0, 100)⟩).2.1 (by norm_num)

/-- C6: with `--raw-json-output` set, `main` prints exactly the JSON
serialization of the Flattened Readings as a single line and exits 0,
regardless of `expected_sensors` and the configured ranges — neither the
count check nor range validation takes place. -/
theorem raw_mode_bypasses_checks (vals : Flat) (expected : ℤ) (ranges : Ranges) :
    mainAfterFlatten vals true expected ranges = (0, [dumps vals]) := by
  simp [mainAfterFlatten]

/-- C5: in the non-raw path, when `len(temp) + len(hum) < expected_sensors`
the run stops with exit status 1 before the Validator is invoked: the output
is the header plus the missing-sensors line for every configuration of
ranges, so no range-violation issue is ever reported. -/
theorem count_check_before_validation (vals : Flat) (expected : ℤ) (ranges : Ranges)
    (h : ((vals.temp.length + vals.hum.length : ℕ) : ℤ) < expected) :
    mainAfterFlatten vals false expected ranges =
      (1, [foundLine vals (vals.temp.length + vals.hum.length), tempLine vals,
           humLine vals,
           missingLine expected (vals.temp.length + vals.hum.length)]) := by
  simp [mainAfterFlatten, h]
  intro hle
  exfalso
  push_cast at h
  omega

/-- Witness for C5: one temperature reading of 200.0 (out of every default
range), `--expected-sensors 3`: exit 1 and no issue line. -/
theorem count_check_before_validation_witness :
    mainAfterFlatten ⟨[200], []⟩ false 3 ⟨(-20, 80), (0, 100)⟩ =
      (1, [foundLine ⟨[200], []⟩ 1, tempLine ⟨[200], []⟩, humLine ⟨[200], []⟩,
           missingLine 3 1]) := by
  have h := count_check_before_validation ⟨[200], []⟩ 3 ⟨(-20, 80), (0, 100)⟩
    (by norm_num)
  simpa using h

/-- In the tail of `main`, every exit code is 0, 1 or 2 — never 3. -/
lemma mainAfterFlatten_ne_three (vals : Flat) (raw : Bool) (expected : ℤ)
    (ranges : Ranges) : (mainAfterFlatten vals raw expected ranges).1 ≠ 3 := by
  simp only [mainAfterFlatten]
  split_ifs <;> simp

/-- C2 (amended): the run terminates with exit status 3 exactly when the
remote output text is not well-formed JSON (`json.loads` raises); then no
later pipeline stage runs.  A text that deserializes to a value the
Flattener cannot walk instead raises `AttributeError` inside
`flatten_sensors`, which `main`'s generic handler maps to exit status 1. -/
theorem parse_error_exit (parsed : Option JValue) (raw : Bool) (expected : ℤ)
    (ranges : Ranges) :
    mainExit parsed raw expected ranges = 3 ↔ parsed = none := by
  cases parsed with
  | none => simp [mainExit]
  | some data =>
    simp only [mainExit]
    cases h : flattenAny data with
    | none => simp
    | some st => simp [mainAfterFlatten_ne_three]

/-- Counterexample to C2 as stated: the remote text `"[1, 2]"` deserializes
successfully to a non-mapping, and the run exits 1 through the generic
handler, not 3. -/
theorem parse_error_exit_cex :
    mainExit (some (.arr [.num 1, .num 2])) false 3 ⟨(-20, 80), (0, 100)⟩ = 1 ∧
    mainExit (some (.arr [.num 1, .num 2])) false 3 ⟨(-20, 80), (0, 100)⟩ ≠ 3 := by
  exact ⟨rfl, by decide⟩

/-- C8: on every run in which the client object was created, `close` is
invoked before `ssh_run` returns or propagates (it appears in the event
trace whether or not connect, exec or close itself succeed), and a failing
`close` never turns a successful run into a failure: when connect and exec
succeed, the result is the decoded stdout text for every behaviour of
`close`. -/
theorem ssh_close_on_all_paths (env : SshEnv) (hc : env.createOk = true) :
    SshEvent.closeCalled ∈ (ssh_run env).1 ∧
    (env.connectOk = true → env.execOk = true →
      (ssh_run env).2 = .ok env.stdoutText) := by
  constructor
  · cases hclose : env.closeOk <;> simp [ssh_run, hc, hclose]
  · intro h1 h2
    simp [ssh_run, hc, h1, h2]

/-- Witness for C8: a run whose `close` fails still closes and still returns
the stdout text. -/
theorem ssh_close_on_all_paths_witness :
    SshEvent.closeCalled ∈ (ssh_run ⟨true, true, true, "out", "", false⟩).1 ∧
    (ssh_run ⟨true, true, true, "out", "", false⟩).2 = .ok "out" := by
  have h := ssh_close_on_all_paths ⟨true, true, true, "out", "", false⟩ rfl
  exact ⟨h.1, h.2 rfl rfl⟩

end SensorsChecking
